import Mathlib

/-!
# Verification of the energy-forecast transformation stage

A shallow embedding of `src/scripts/transform_data.py`.  A DataFrame indexed
by timestamp is modelled as a `List` of rows in index order; a nullable column
entry is an `Option ℚ` (`none` models SQL `NULL` / pandas `NaN`; demand values
are integers stored as rationals so that derived means stay exact).
Timestamps are hours since the Unix epoch, so an hourly series has consecutive
naturals as timestamps.
-/

namespace EnergyPipeline

/-- A row of the `raw_demand` table: a timestamp (hours since the epoch) and a
nullable demand value (`demand_mwh INT`, nullable). -/
structure RawRow where
  timestamp : Nat
  demand_mwh : Option ℚ
deriving DecidableEq

/-- Ascending comparison of rows by their timestamp index, the order used by
`df.sort_index()`. -/
def tsLe (a b : RawRow) : Prop := a.timestamp ≤ b.timestamp

instance : DecidableRel tsLe := fun a b => Nat.decLe a.timestamp b.timestamp

instance : IsTotal RawRow tsLe := ⟨fun a b => Nat.le_total a.timestamp b.timestamp⟩

instance : IsTrans RawRow tsLe := ⟨fun _ _ _ hab hbc => Nat.le_trans hab hbc⟩

/-- The loader `load_raw_data`: read the whole `raw_demand` table and sort it
ascending by the timestamp index (`df.sort_index()`).  The `none` input models
an unreachable store (the `except` branch that returns `None`); an existing
but empty table reads as `some []`. -/
def load_raw_data (store : Option (List RawRow)) : Option (List RawRow) :=
  store.map (fun rows => List.insertionSort tsLe rows)

/-- Scan for `df.index.duplicated(keep="first")`: a row is kept exactly when
its timestamp has not occurred earlier in the scan, `seen` being the set of
timestamps already passed. -/
def dedupFirstGo (seen : List Nat) : List RawRow → List RawRow
  | [] => []
  | r :: rs =>
    if r.timestamp ∈ seen then dedupFirstGo seen rs
    else r :: dedupFirstGo (r.timestamp :: seen) rs

/-- The deduplication line `df = df[~df.index.duplicated(keep="first")]`. -/
def dedupFirst (rows : List RawRow) : List RawRow := dedupFirstGo [] rows

/-- Forward fill `df["demand_mwh"].ffill()`, threading the most recent
non-null value. -/
def ffillGo (last : Option ℚ) : List RawRow → List RawRow
  | [] => []
  | r :: rs =>
    let v : Option ℚ :=
      match r.demand_mwh with
      | some x => some x
      | none => last
    { r with demand_mwh := v } :: ffillGo v rs

/-- The null-handling step of `transform_data`: forward fill runs only when the
demand column contains a null, exactly as the
`if df["demand_mwh"].isnull().sum() > 0` guard does. -/
def fillDemand (rows : List RawRow) : List RawRow :=
  if rows.any (fun r => r.demand_mwh.isNone) then ffillGo none rows else rows

/-- The data-cleaning block of `transform_data`: global first-occurrence
deduplication of the timestamp index followed by the guarded forward fill. -/
def cleanStage (rows : List RawRow) : List RawRow :=
  fillDemand (dedupFirst rows)

/-- The demand column of a frame, in index order. -/
def demandCol (rows : List RawRow) : List (Option ℚ) :=
  rows.map (fun r => r.demand_mwh)

/-- Read of `Series.shift(n)` at position `i`: the value that sat `n`
positions earlier, null for the first `n` positions (out-of-range reads are
null). -/
def shiftAt (s : List (Option ℚ)) (n i : Nat) : Option ℚ :=
  if n ≤ i then (s[i - n]?).join else none

/-- The whole column produced by `Series.shift(n)` (same length as `s`). -/
def shiftList (n : Nat) (s : List (Option ℚ)) : List (Option ℚ) :=
  (List.range s.length).map (fun i => shiftAt s n i)

/-- Read of `Series.rolling(window=w).mean()` at position `i`.  The window is
the `min w (i+1)` positions ending at `i` (ascending); with the default
`min_periods = w`, the mean is defined only when the window contributes `w`
non-null values, and nulls inside the window are skipped by the count. -/
def rollingMeanAt (s : List (Option ℚ)) (w i : Nat) : Option ℚ :=
  let lo := i + 1 - w
  let vals := ((List.range (i + 1 - lo)).map (fun j => (s[lo + j]?).join)).filterMap id
  if vals.length = w then some (vals.sum / (w : ℚ)) else none

/-- The 24 cleaned demand values at positions `i - 24` through `i - 1`, the
window the rolling mean of `transform_data` averages at position `i ≥ 24`. -/
def lookbackWindow (ds : List (Option ℚ)) (i : Nat) : List (Option ℚ) :=
  (List.range 24).map (fun j => (ds[i - 24 + j]?).join)

/-- Calendar column `df.index.hour` for an hours-since-epoch index. -/
def hourOfTs (t : Nat) : Nat := t % 24

/-- Calendar column `df.index.dayofweek` (Monday = 0); day 0 of the epoch was
a Thursday. -/
def dayOfWeekOfTs (t : Nat) : Nat := (t / 24 + 3) % 7

/-- Gregorian `(year, month, day-of-month)` of a day count since 1970-01-01,
by the standard era-based civil-calendar conversion. -/
def civilOfDay (z : Nat) : Nat × Nat × Nat :=
  let z' := z + 719468
  let era := z' / 146097
  let doe := z' % 146097
  let yoe := (doe - doe / 1460 + doe / 36524 - doe / 146097) / 365
  let y := yoe + era * 400
  let doy := doe - (365 * yoe + yoe / 4 - yoe / 100)
  let mp := (5 * doy + 2) / 153
  let d := doy - (153 * mp + 2) / 5 + 1
  let m := if mp < 10 then mp + 3 else mp - 9
  (if m ≤ 2 then y + 1 else y, m, d)

/-- Leap-year test of the Gregorian calendar. -/
def isLeap (y : Nat) : Bool :=
  (y % 4 == 0 && y % 100 != 0) || y % 400 == 0

/-- Days in the months preceding month `m` (1-based) of a (non-)leap year. -/
def daysBeforeMonth (leap : Bool) (m : Nat) : Nat :=
  (List.take (m - 1)
    [31, if leap then 29 else 28, 31, 30, 31, 30, 31, 31, 30, 31, 30, 31]).sum

/-- Calendar column `df.index.year`. -/
def yearOfTs (t : Nat) : Nat := (civilOfDay (t / 24)).1

/-- Calendar column `df.index.month`. -/
def monthOfTs (t : Nat) : Nat := (civilOfDay (t / 24)).2.1

/-- Calendar column `df.index.dayofyear` (1-based ordinal day within the
year). -/
def dayOfYearOfTs (t : Nat) : Nat :=
  let c := civilOfDay (t / 24)
  daysBeforeMonth (isLeap c.1) c.2.1 + c.2.2

/-- A row of the engineered frame: the original index and demand plus the five
calendar columns and the three look-back columns added by `transform_data`.
The calendar columns are total functions of the timestamp and can never be
null; the demand and look-back columns are nullable. -/
structure FeatureRow where
  timestamp : Nat
  demand_mwh : Option ℚ
  hour : Nat
  day_of_week : Nat
  day_of_year : Nat
  month : Nat
  year : Nat
  lag_demand_24h : Option ℚ
  lag_demand_1_week : Option ℚ
  rolling_mean_24h : Option ℚ
deriving DecidableEq

/-- The feature row engineered at position `i` of the cleaned frame, whose row
there is `r`: calendar columns from the index, `shift(24)` and `shift(24*7)`
of the demand column, and `shift(1).rolling(window=24).mean()` of the demand
column. -/
def featureAt (rows : List RawRow) (i : Nat) (r : RawRow) : FeatureRow :=
  { timestamp := r.timestamp
    demand_mwh := r.demand_mwh
    hour := hourOfTs r.timestamp
    day_of_week := dayOfWeekOfTs r.timestamp
    day_of_year := dayOfYearOfTs r.timestamp
    month := monthOfTs r.timestamp
    year := yearOfTs r.timestamp
    lag_demand_24h := shiftAt (demandCol rows) 24 i
    lag_demand_1_week := shiftAt (demandCol rows) (24 * 7) i
    rolling_mean_24h := rollingMeanAt (shiftList 1 (demandCol rows)) 24 i }

/-- The feature-engineering block of `transform_data`, one engineered row per
cleaned row. -/
def buildFeatures (rows : List RawRow) : List FeatureRow :=
  rows.enum.map (fun p => featureAt rows p.1 p.2)

/-- A row survives `df.dropna()` exactly when none of its columns is null; the
five calendar columns are bare naturals, so only the demand column and the
three look-back columns can be null. -/
def rowComplete (fr : FeatureRow) : Bool :=
  fr.demand_mwh.isSome && fr.lag_demand_24h.isSome &&
    fr.lag_demand_1_week.isSome && fr.rolling_mean_24h.isSome

/-- The final trimming `df = df.dropna()`. -/
def dropna (l : List FeatureRow) : List FeatureRow := l.filter rowComplete

/-- The whole of `transform_data`: cleaning, feature engineering, and the
final `dropna`. -/
def transform_data (rows : List RawRow) : List FeatureRow :=
  dropna (buildFeatures (cleanStage rows))

/-- The cleaned demand column that the look-back features of `transform_data`
are computed from. -/
def cleanedDemands (rows : List RawRow) : List (Option ℚ) :=
  demandCol (cleanStage rows)

/-- The stored `features_demand` table; `none` means the table does not exist
yet. -/
def dropTableIfExists (_store : Option (List FeatureRow)) :
    Option (List FeatureRow) := none

/-- The create-and-insert half of `df.to_sql`: append the frame's rows to
whatever the table holds (the empty table when it was just created). -/
def writeTable (table : List FeatureRow) (store : Option (List FeatureRow)) :
    Option (List FeatureRow) :=
  some (store.getD [] ++ table)

/-- The persist step `save_features_data`, which runs
`df.to_sql("features_demand", if_exists="replace")`: drop any existing table,
then write the new rows. -/
def save_features_data (table : List FeatureRow)
    (store : Option (List FeatureRow)) : Option (List FeatureRow) :=
  writeTable table (dropTableIfExists store)

/-- The rows currently stored in a `features_demand` table state. -/
def storedRows (store : Option (List FeatureRow)) : List FeatureRow :=
  store.getD []

/-- How a run of the `__main__` driver terminates. -/
inductive RunOutcome where
  | noEngine
  | loadFailed
  | emptyResult
  | saved
deriving DecidableEq

/-- The `__main__` driver of `transform_data.py`: create the engine, load,
transform, and save only when the transformed frame is non-empty; on every
non-saving path the stored feature table is left untouched. -/
def runMain (engine : Bool) (raw : Option (List RawRow))
    (store : Option (List FeatureRow)) : RunOutcome × Option (List FeatureRow) :=
  if engine then
    match load_raw_data raw with
    | none => (RunOutcome.loadFailed, store)
    | some rows =>
      let t := transform_data rows
      if t.isEmpty then (RunOutcome.emptyResult, store)
      else (RunOutcome.saved, save_features_data t store)
  else (RunOutcome.noEngine, store)

/-- The value forward fill should place at position `i`: the nearest non-null
value at or before `i` (so the position's own value when that is non-null),
and null when no such value exists. -/
def nearestAtOrBefore (ds : List (Option ℚ)) (i : Nat) : Option ℚ :=
  ((ds.take (i + 1)).filterMap id).getLast?

/-- Hour index of 2024-01-01T00:00Z since the epoch. -/
def hour2024 : Nat := 473352

/-- The spec's concrete scenario: 200 consecutive hourly rows starting at
2024-01-01T00:00Z with demand `1000 + i` at row `i`. -/
def sample200 : List RawRow :=
  (List.range 200).map (fun i =>
    { timestamp := hour2024 + i, demand_mwh := some (1000 + (i : ℚ)) })

/-- A minimal series that survives warm-up: 169 consecutive hourly rows with
demand `i` at row `i`. -/
def sample169 : List RawRow :=
  (List.range 169).map (fun i => { timestamp := i, demand_mwh := some ((i : ℚ)) })

/-- The single feature row that `transform_data` produces from `sample169`. -/
def sample169Row : FeatureRow :=
  { timestamp := 168
    demand_mwh := some 168
    hour := 0
    day_of_week := 3
    day_of_year := 8
    month := 1
    year := 1970
    lag_demand_24h := some 144
    lag_demand_1_week := some 0
    rolling_mean_24h := some (311 / 2) }

/-- The first feature row that `transform_data` produces from `sample200`: it
sits at input row index 168 (2024-01-08T00:00Z), its lag columns read the
demands 24 and 168 rows back (`1000 + 144` and `1000 + 0`), and its rolling
mean averages the demands at rows 144 through 167
(`(1144 + 1167) / 2 = 2311 / 2`). -/
def sample200Row : FeatureRow :=
  { timestamp := hour2024 + 168
    demand_mwh := some 1168
    hour := 0
    day_of_week := 0
    day_of_year := 8
    month := 1
    year := 2024
    lag_demand_24h := some 1144
    lag_demand_1_week := some 1000
    rolling_mean_24h := some (2311 / 2) }

/-- A one-row raw series: far too short for the 168-row warm-up, so
`transform_data` returns no rows on it. -/
def oneRow : List RawRow :=
  [{ timestamp := 0, demand_mwh := some 5 }]

/-- An already-cleaned two-row series: distinct timestamps, no nulls. -/
def cleanPair : List RawRow :=
  [{ timestamp := 0, demand_mwh := some 1 },
   { timestamp := 1, demand_mwh := some 2 }]

/-- The spec's leading-gap scenario: the first five rows have missing demand
and the sixth carries 500. -/
def gapSample : List RawRow :=
  [{ timestamp := 0, demand_mwh := none },
   { timestamp := 1, demand_mwh := none },
   { timestamp := 2, demand_mwh := none },
   { timestamp := 3, demand_mwh := none },
   { timestamp := 4, demand_mwh := none },
   { timestamp := 5, demand_mwh := some 500 }]

/-- The spec's duplicate-timestamp scenario: two rows share timestamp 7 with
differing demands, first one first. -/
def dupSample : List RawRow :=
  [{ timestamp := 7, demand_mwh := some 100 },
   { timestamp := 7, demand_mwh := some 200 }]

/-- The row that deduplication keeps from `dupSample`. -/
def dupKept : RawRow :=
  { timestamp := 7, demand_mwh := some 100 }

/-! ## Lemmas about deduplication -/

theorem dedupFirstGo_sublist (seen : List Nat) (rows : List RawRow) :
    (dedupFirstGo seen rows).Sublist rows := by
  induction rows generalizing seen with
  | nil => simp [dedupFirstGo]
  | cons r rs ih =>
    by_cases h : r.timestamp ∈ seen
    · rw [dedupFirstGo, if_pos h]
      exact (ih seen).trans (List.sublist_cons_self r rs)
    · rw [dedupFirstGo, if_neg h]
      exact (ih _).cons₂ r

theorem timestamp_not_seen_of_mem_dedupFirstGo {seen : List Nat}
    {rows : List RawRow} {r : RawRow} (h : r ∈ dedupFirstGo seen rows) :
    r.timestamp ∉ seen := by
  induction rows generalizing seen with
  | nil => simp [dedupFirstGo] at h
  | cons a rs ih =>
    by_cases ha : a.timestamp ∈ seen
    · rw [dedupFirstGo, if_pos ha] at h
      exact ih h
    · rw [dedupFirstGo, if_neg ha] at h
      rcases List.mem_cons.mp h with rfl | h
      · exact ha
      · have hr := ih h
        exact fun hc => hr (List.mem_cons_of_mem _ hc)

theorem nodup_timestamps_dedupFirstGo (seen : List Nat) (rows : List RawRow) :
    ((dedupFirstGo seen rows).map (fun r => r.timestamp)).Nodup := by
  induction rows generalizing seen with
  | nil => simp [dedupFirstGo]
  | cons a rs ih =>
    by_cases ha : a.timestamp ∈ seen
    · rw [dedupFirstGo, if_pos ha]
      exact ih seen
    · rw [dedupFirstGo, if_neg ha, List.map_cons]
      refine List.nodup_cons.mpr ⟨?_, ih _⟩
      intro hmem
      rcases List.mem_map.mp hmem with ⟨s, hs, hts⟩
      exact timestamp_not_seen_of_mem_dedupFirstGo hs
        (by rw [hts]; exact List.mem_cons_self _ _)

theorem dedupFirstGo_eq_self {seen : List Nat} {rows : List RawRow}
    (hnodup : (rows.map (fun r => r.timestamp)).Nodup)
    (hseen : ∀ r ∈ rows, r.timestamp ∉ seen) :
    dedupFirstGo seen rows = rows := by
  induction rows generalizing seen with
  | nil => rfl
  | cons a rs ih =>
    rw [List.map_cons, List.nodup_cons] at hnodup
    rw [dedupFirstGo, if_neg (hseen a (List.mem_cons_self a rs))]
    congr 1
    refine ih hnodup.2 ?_
    intro r hr hc
    rcases List.mem_cons.mp hc with he | hc
    · exact hnodup.1 (he ▸ List.mem_map_of_mem (fun r => r.timestamp) hr)
    · exact hseen r (List.mem_cons_of_mem _ hr) hc

theorem find?_eq_of_mem_dedupFirstGo {seen : List Nat} {rows : List RawRow}
    {r : RawRow} (h : r ∈ dedupFirstGo seen rows) :
    rows.find? (fun x => x.timestamp == r.timestamp) = some r := by
  induction rows generalizing seen with
  | nil => simp [dedupFirstGo] at h
  | cons a rs ih =>
    by_cases ha : a.timestamp ∈ seen
    · rw [dedupFirstGo, if_pos ha] at h
      have hne : a.timestamp ≠ r.timestamp := by
        intro he
        exact timestamp_not_seen_of_mem_dedupFirstGo h (he ▸ ha)
      rw [List.find?_cons_of_neg _ (by simpa using hne)]
      exact ih h
    · rw [dedupFirstGo, if_neg ha] at h
      rcases List.mem_cons.mp h with rfl | h
      · exact List.find?_cons_of_pos _ (by simp)
      · have hne : a.timestamp ≠ r.timestamp := by
          intro he
          exact timestamp_not_seen_of_mem_dedupFirstGo h
            (by rw [← he]; exact List.mem_cons_self _ _)
        rw [List.find?_cons_of_neg _ (by simpa using hne)]
        exact ih h

theorem covered_by_dedupFirstGo (seen : List Nat) {rows : List RawRow}
    {r : RawRow} (hr : r ∈ rows) :
    r.timestamp ∈ seen ∨ ∃ s ∈ dedupFirstGo seen rows, s.timestamp = r.timestamp := by
  induction rows generalizing seen with
  | nil => cases hr
  | cons a rs ih =>
    by_cases ha : a.timestamp ∈ seen
    · rw [dedupFirstGo, if_pos ha]
      rcases List.mem_cons.mp hr with rfl | hr
      · exact Or.inl ha
      · exact ih seen hr
    · rw [dedupFirstGo, if_neg ha]
      rcases List.mem_cons.mp hr with he | hr
      · exact Or.inr ⟨a, List.mem_cons_self _ _, by rw [he]⟩
      · rcases ih (a.timestamp :: seen) hr with hs | ⟨s, hsmem, hts⟩
        · rcases List.mem_cons.mp hs with he | hs
          · exact Or.inr ⟨a, List.mem_cons_self _ _, he.symm⟩
          · exact Or.inl hs
        · exact Or.inr ⟨s, List.mem_cons_of_mem _ hsmem, hts⟩

/-! ## Lemmas about forward fill -/

theorem ffillGo_map_timestamp (last : Option ℚ) (rows : List RawRow) :
    (ffillGo last rows).map (fun r => r.timestamp) =
      rows.map (fun r => r.timestamp) := by
  induction rows generalizing last with
  | nil => rfl
  | cons a rs ih => simp [ffillGo, ih]

theorem ffillGo_eq_self {last : Option ℚ} {rows : List RawRow}
    (h : ∀ r ∈ rows, r.demand_mwh.isSome) : ffillGo last rows = rows := by
  induction rows generalizing last with
  | nil => rfl
  | cons a rs ih =>
    have htail : ∀ r ∈ rs, r.demand_mwh.isSome :=
      fun r hr => h r (List.mem_cons_of_mem _ hr)
    obtain ⟨ts, d⟩ := a
    rcases Option.isSome_iff_exists.mp (h _ (List.mem_cons_self _ _)) with ⟨x, hx⟩
    subst hx
    simp [ffillGo, ih htail]

theorem fillDemand_eq_ffillGo (rows : List RawRow) :
    fillDemand rows = ffillGo none rows := by
  by_cases hg : rows.any (fun r => r.demand_mwh.isNone)
  · rw [fillDemand, if_pos hg]
  · rw [fillDemand, if_neg hg]
    refine (ffillGo_eq_self ?_).symm
    intro r hr
    by_contra hns
    refine hg (List.any_eq_true.mpr ⟨r, hr, ?_⟩)
    simpa [Option.not_isSome_iff_eq_none] using hns

theorem getLast?_cons_eq_or {α : Type} (x : α) (l : List α) :
    (x :: l).getLast? = l.getLast?.or (some x) := by
  cases l with
  | nil => rfl
  | cons y ys =>
    rcases Option.isSome_iff_exists.mp
      (List.getLast?_isSome.mpr (List.cons_ne_nil y ys)) with ⟨z, hz⟩
    rw [List.getLast?_cons_cons, hz, Option.or_some]

theorem ffillGo_demand_char (rows : List RawRow) :
    ∀ (last : Option ℚ) (i : Nat), i < rows.length →
      ((ffillGo last rows)[i]?).map (fun r => r.demand_mwh) =
        some (((((rows.map (fun r => r.demand_mwh)).take (i + 1)).filterMap
          id).getLast?).or last) := by
  induction rows with
  | nil =>
    intro last i h
    simp at h
  | cons a rs ih =>
    intro last i hi
    obtain ⟨ts, d⟩ := a
    cases i with
    | zero =>
      cases d with
      | none => simp [ffillGo]
      | some x => simp [ffillGo]
    | succ i =>
      have hi' : i < rs.length := by simpa using hi
      cases d with
      | none =>
        simpa [ffillGo, List.take_succ_cons] using ih last i hi'
      | some x =>
        have step := ih (some x) i hi'
        have hfm : ∀ (y : ℚ) (l : List (Option ℚ)),
            List.filterMap id (some y :: l) = y :: List.filterMap id l :=
          fun y l => List.filterMap_cons_some rfl
        simp only [ffillGo, List.getElem?_cons_succ, List.map_cons,
          List.take_succ_cons, hfm] at step ⊢
        rw [step, getLast?_cons_eq_or, Option.or_assoc, Option.or_some]

/-! ## Lemmas about the shifted and rolling columns -/

theorem length_filterMap_id_eq_countP {α : Type} (l : List (Option α)) :
    (l.filterMap id).length = l.countP (fun x => x.isSome) := by
  induction l with
  | nil => rfl
  | cons a t ih =>
    cases a with
    | none => simp [List.filterMap_cons, List.countP_cons, ih]
    | some x => simp [List.filterMap_cons, List.countP_cons, ih]

theorem getElem?_shiftList (n : Nat) (s : List (Option ℚ)) (k : Nat) :
    (shiftList n s)[k]? = if k < s.length then some (shiftAt s n k) else none := by
  by_cases hk : k < s.length
  · rw [if_pos hk, shiftList, List.getElem?_map, List.getElem?_range hk]
    rfl
  · rw [if_neg hk, shiftList]
    refine List.getElem?_eq_none ?_
    simpa using Nat.le_of_not_lt hk

theorem length_lookbackWindow (ds : List (Option ℚ)) (i : Nat) :
    (lookbackWindow ds i).length = 24 := by
  simp [lookbackWindow]

theorem rollingMean_shift_char {ds : List (Option ℚ)} {i : Nat}
    (hi : i < ds.length) :
    rollingMeanAt (shiftList 1 ds) 24 i =
      if 24 ≤ i then
        (if (lookbackWindow ds i).all (fun x => x.isSome) then
          some (((lookbackWindow ds i).filterMap id).sum / (24 : ℚ))
        else none)
      else none := by
  have hslen : (shiftList 1 ds).length = ds.length := by simp [shiftList]
  by_cases h24 : 24 ≤ i
  · rw [if_pos h24]
    have hlo : i + 1 - (i + 1 - 24) = 24 := Nat.sub_sub_self (by omega)
    have hmap : (List.range (i + 1 - (i + 1 - 24))).map
        (fun j => ((shiftList 1 ds)[i + 1 - 24 + j]?).join) = lookbackWindow ds i := by
      rw [hlo, lookbackWindow]
      refine List.map_congr_left ?_
      intro j hj
      rw [List.mem_range] at hj
      have hin : i + 1 - 24 + j < (shiftList 1 ds).length := by
        rw [hslen]; omega
      rw [List.getElem?_eq_getElem hin]
      have hsh : (shiftList 1 ds)[i + 1 - 24 + j] = shiftAt ds 1 (i + 1 - 24 + j) := by
        have := getElem?_shiftList 1 ds (i + 1 - 24 + j)
        rw [List.getElem?_eq_getElem hin, if_pos (by omega : i + 1 - 24 + j < ds.length)] at this
        exact Option.some_injective _ this
      rw [hsh, shiftAt, if_pos (by omega : 1 ≤ i + 1 - 24 + j)]
      have harg : i + 1 - 24 + j - 1 = i - 24 + j := by omega
      rw [harg]
      simp
    rw [rollingMeanAt]
    simp only [hmap]
    have hcnt : ((lookbackWindow ds i).filterMap id).length =
        (lookbackWindow ds i).countP (fun x => x.isSome) :=
      length_filterMap_id_eq_countP _
    by_cases hall : (lookbackWindow ds i).all (fun x => x.isSome)
    · rw [if_pos hall]
      have : (lookbackWindow ds i).countP (fun x => x.isSome) = 24 := by
        rw [List.countP_eq_length.mpr (List.all_eq_true.mp hall)]
        exact length_lookbackWindow ds i
      rw [if_pos (by rw [hcnt, this])]
      norm_num
    · rw [if_neg hall]
      rw [if_neg ?_]
      rw [hcnt]
      intro hc
      refine hall (List.all_eq_true.mpr ?_)
      have := List.countP_eq_length.mp (by rw [hc]; exact (length_lookbackWindow ds i).symm)
      exact this
  · rw [if_neg h24]
    have hlo : i + 1 - 24 = 0 := by omega
    rw [rollingMeanAt]
    simp only [hlo, Nat.sub_zero, Nat.zero_add]
    rw [List.range_succ_eq_map, List.map_cons]
    have h0 : ((shiftList 1 ds)[0]?).join = none := by
      have h0lt : 0 < ds.length := by omega
      have := getElem?_shiftList 1 ds 0
      rw [if_pos h0lt] at this
      rw [this, shiftAt]
      rfl
    rw [h0, List.filterMap_cons_none rfl]
    have hbound : (List.filterMap id (List.map (fun j => ((shiftList 1 ds)[j]?).join)
        (List.map Nat.succ (List.range i)))).length ≠ 24 := by
      intro hc
      have hle := List.length_filterMap_le id (List.map
        (fun j => ((shiftList 1 ds)[j]?).join) (List.map Nat.succ (List.range i)))
      rw [hc] at hle
      simp at hle
      omega
    rw [if_neg hbound]

theorem shiftAt_isSome_char {s : List (Option ℚ)} {n i : Nat} (hi : i < s.length)
    (hsome : ∀ x ∈ s, x.isSome) : (shiftAt s n i).isSome = decide (n ≤ i) := by
  by_cases hn : n ≤ i
  · rw [shiftAt, if_pos hn]
    have hlt : i - n < s.length := lt_of_le_of_lt (Nat.sub_le i n) hi
    rw [List.getElem?_eq_getElem hlt]
    have := hsome _ (List.getElem_mem hlt)
    simpa [hn] using this
  · rw [shiftAt, if_neg hn]
    simp [hn]

/-! ## Lemmas about the engineered frame -/

theorem length_buildFeatures (rows : List RawRow) :
    (buildFeatures rows).length = rows.length := by
  simp [buildFeatures]

theorem getElem?_buildFeatures (rows : List RawRow) (i : Nat) :
    (buildFeatures rows)[i]? = (rows[i]?).map (fun r => featureAt rows i r) := by
  rw [buildFeatures, List.getElem?_map,
    show rows.enum = rows.enumFrom 0 from rfl, List.getElem?_enumFrom]
  cases h : rows[i]? with
  | none => rfl
  | some r => simp

theorem map_timestamp_buildFeatures (rows : List RawRow) :
    (buildFeatures rows).map (fun fr => fr.timestamp) =
      rows.map (fun r => r.timestamp) := by
  rw [buildFeatures, List.map_map,
    show ((fun fr : FeatureRow => fr.timestamp) ∘ fun p : Nat × RawRow =>
      featureAt rows p.1 p.2) =
      ((fun r : RawRow => r.timestamp) ∘ Prod.snd) from rfl,
    ← List.map_map, show rows.enum = rows.enumFrom 0 from rfl,
    List.enumFrom_map_snd]

theorem filter_eq_drop_of_index_threshold {α : Type} (p : α → Bool) :
    ∀ (l : List α) (n : Nat),
      (∀ i (hi : i < l.length), p (l.get ⟨i, hi⟩) = decide (n ≤ i)) →
      l.filter p = l.drop n := by
  intro l
  induction l with
  | nil =>
    intro n h
    simp
  | cons a t ih =>
    intro n h
    cases n with
    | zero =>
      have hall : ∀ x ∈ a :: t, p x := by
        intro x hx
        rcases List.mem_iff_get.mp hx with ⟨⟨i, hi⟩, rfl⟩
        simpa using h i hi
      simpa using List.filter_eq_self.mpr hall
    | succ n =>
      have h0 := h 0 (Nat.succ_pos _)
      rw [List.drop_succ_cons, List.filter_cons_of_neg (by simpa using h0)]
      refine ih n ?_
      intro i hi
      simpa [Nat.succ_le_succ_iff] using h (i + 1) (Nat.succ_lt_succ hi)

theorem mem_demandCol_of_getElem? {rows : List RawRow} {i : Nat} {r : RawRow}
    (hr : rows[i]? = some r) : r.demand_mwh ∈ demandCol rows := by
  have hd : (demandCol rows)[i]? = some r.demand_mwh := by
    rw [demandCol, List.getElem?_map, hr]
    rfl
  rcases List.getElem?_eq_some.mp hd with ⟨h, he⟩
  exact he ▸ List.getElem_mem h

theorem rowComplete_featureAt {rows : List RawRow} {i : Nat} {r : RawRow}
    (hsome : ∀ x ∈ demandCol rows, x.isSome)
    (hi : i < rows.length) (hr : rows[i]? = some r) :
    rowComplete (featureAt rows i r) = decide (168 ≤ i) := by
  have hdlen : (demandCol rows).length = rows.length := by simp [demandCol]
  have hdi : i < (demandCol rows).length := by rw [hdlen]; exact hi
  have hdemand : r.demand_mwh.isSome := hsome _ (mem_demandCol_of_getElem? hr)
  have h24 := @shiftAt_isSome_char (demandCol rows) 24 i hdi hsome
  have h168 := @shiftAt_isSome_char (demandCol rows) (24 * 7) i hdi hsome
  have hroll : (rollingMeanAt (shiftList 1 (demandCol rows)) 24 i).isSome
      = decide (24 ≤ i) := by
    rw [rollingMean_shift_char hdi]
    by_cases h : 24 ≤ i
    · have hall : (lookbackWindow (demandCol rows) i).all (fun x => x.isSome)
          = true := by
        rw [List.all_eq_true]
        intro x hx
        rcases List.mem_map.mp hx with ⟨j, hj, hxe⟩
        rw [List.mem_range] at hj
        have hin : i - 24 + j < (demandCol rows).length := by omega
        rw [List.getElem?_eq_getElem hin] at hxe
        have hv := hsome _ (List.getElem_mem hin)
        rw [← hxe]
        exact hv
      rw [if_pos h, if_pos hall]
      simp [h]
    · rw [if_neg h]
      simp [h]
  have h77 : (24 * 7 : Nat) = 168 := by norm_num
  rw [h77] at h168
  simp only [rowComplete, featureAt]
  rw [h24, h168, hroll, hdemand]
  by_cases h : 168 ≤ i
  · have h24le : 24 ≤ i := le_trans (by norm_num) h
    simp [h, h24le]
  · simp [h]

theorem transform_length_of_allSome {rows : List RawRow}
    (hno : ∀ r ∈ rows, r.demand_mwh.isSome) :
    (transform_data rows).length = (dedupFirst rows).length - 168 := by
  have hddall : ∀ r ∈ dedupFirst rows, r.demand_mwh.isSome :=
    fun r hr => hno r ((dedupFirstGo_sublist [] rows).subset hr)
  have hclean : cleanStage rows = dedupFirst rows := by
    rw [cleanStage, fillDemand_eq_ffillGo, ffillGo_eq_self hddall]
  have hsome : ∀ x ∈ demandCol (dedupFirst rows), x.isSome := by
    intro x hx
    rcases List.mem_map.mp hx with ⟨r, hr, hxe⟩
    exact hxe ▸ hddall r hr
  rw [transform_data, hclean, dropna,
    filter_eq_drop_of_index_threshold rowComplete (buildFeatures (dedupFirst rows))
      168 ?_]
  · rw [List.length_drop, length_buildFeatures]
  · intro i hi
    have hi' : i < (dedupFirst rows).length := by
      rw [length_buildFeatures] at hi
      exact hi
    have hr : (dedupFirst rows)[i]? = some ((dedupFirst rows).get ⟨i, hi'⟩) := by
      rw [List.getElem?_eq_getElem hi']
      simp [List.get_eq_getElem]
    have h1 : (buildFeatures (dedupFirst rows))[i]? =
        some (featureAt (dedupFirst rows) i ((dedupFirst rows).get ⟨i, hi'⟩)) := by
      rw [getElem?_buildFeatures, hr]
      rfl
    have h2 : (buildFeatures (dedupFirst rows)).get ⟨i, hi⟩ =
        featureAt (dedupFirst rows) i ((dedupFirst rows).get ⟨i, hi'⟩) := by
      have := (List.getElem?_eq_getElem hi).symm.trans h1
      rw [List.get_eq_getElem]
      exact Option.some_injective _ this
    rw [h2]
    exact rowComplete_featureAt hsome hi' hr

theorem mem_transform_decomp {rows : List RawRow} {fr : FeatureRow}
    (h : fr ∈ transform_data rows) :
    ∃ i, ∃ hi : i < (cleanStage rows).length,
      fr = featureAt (cleanStage rows) i ((cleanStage rows).get ⟨i, hi⟩) ∧
      rowComplete fr = true := by
  rw [transform_data, dropna] at h
  have hmem := List.mem_of_mem_filter h
  have hcomp := List.of_mem_filter h
  rcases List.mem_iff_get.mp hmem with ⟨⟨i, hi⟩, hget⟩
  have hi' : i < (cleanStage rows).length := by
    rw [length_buildFeatures] at hi
    exact hi
  have hr : (cleanStage rows)[i]? = some ((cleanStage rows).get ⟨i, hi'⟩) := by
    rw [List.getElem?_eq_getElem hi']
    simp [List.get_eq_getElem]
  have h1 : (buildFeatures (cleanStage rows))[i]? =
      some (featureAt (cleanStage rows) i ((cleanStage rows).get ⟨i, hi'⟩)) := by
    rw [getElem?_buildFeatures, hr]
    rfl
  have h2 : (buildFeatures (cleanStage rows)).get ⟨i, hi⟩ =
      featureAt (cleanStage rows) i ((cleanStage rows).get ⟨i, hi'⟩) := by
    have := (List.getElem?_eq_getElem hi).symm.trans h1
    rw [List.get_eq_getElem]
    exact Option.some_injective _ this
  exact ⟨i, hi', by rw [← hget, h2], hcomp⟩

/-! ## Claim theorems -/

/-- **C1** — for every retained output row, sitting at position `i` of the
cleaned series, each look-back feature is a function exclusively of cleaned
rows strictly before `i`: `lag_demand_24h` is the demand of the 24th prior
row, `lag_demand_1_week` the demand of the 168th prior row, and
`rolling_mean_24h` the mean of the 24 demands at positions `i - 24` through
`i - 1` (the row's own demand excluded); moreover every tampering of the
demand column at positions `≥ i` that keeps row `i` in range leaves all three
look-back features unchanged, so none derives from `demand(t)` or any row at
position `≥ t`. -/
theorem lookback_features_strictly_prior (rows : List RawRow) (fr : FeatureRow)
    (hfr : fr ∈ transform_data rows) :
    ∃ i, 168 ≤ i ∧ i < (cleanStage rows).length ∧
      fr.demand_mwh = ((cleanedDemands rows)[i]?).join ∧
      fr.lag_demand_24h = ((cleanedDemands rows)[i - 24]?).join ∧
      fr.lag_demand_1_week = ((cleanedDemands rows)[i - 168]?).join ∧
      (lookbackWindow (cleanedDemands rows) i).all (fun x => x.isSome) = true ∧
      fr.rolling_mean_24h =
        some (((lookbackWindow (cleanedDemands rows) i).filterMap id).sum / (24 : ℚ)) ∧
      (∀ ds' : List (Option ℚ), i < ds'.length →
        (∀ j, j < i → ds'[j]? = (cleanedDemands rows)[j]?) →
        shiftAt ds' 24 i = fr.lag_demand_24h ∧
        shiftAt ds' (24 * 7) i = fr.lag_demand_1_week ∧
        rollingMeanAt (shiftList 1 ds') 24 i = fr.rolling_mean_24h) := by
  rcases mem_transform_decomp hfr with ⟨i, hi, hfe, hcomp⟩
  have hdlen : (cleanedDemands rows).length = (cleanStage rows).length := by
    simp [cleanedDemands, demandCol]
  have hdi : i < (cleanedDemands rows).length := by
    rw [hdlen]
    exact hi
  have hlag24 : fr.lag_demand_24h = shiftAt (cleanedDemands rows) 24 i := by
    rw [hfe]
    rfl
  have hlag168 : fr.lag_demand_1_week = shiftAt (cleanedDemands rows) (24 * 7) i := by
    rw [hfe]
    rfl
  have hrollv : fr.rolling_mean_24h =
      rollingMeanAt (shiftList 1 (cleanedDemands rows)) 24 i := by
    rw [hfe]
    rfl
  rw [rowComplete] at hcomp
  simp only [Bool.and_eq_true] at hcomp
  obtain ⟨⟨⟨_hdm, _hl24⟩, hl168⟩, hrl⟩ := hcomp
  have h168 : 168 ≤ i := by
    by_contra hc
    rw [hlag168, shiftAt, if_neg (by omega : ¬ 24 * 7 ≤ i)] at hl168
    simp at hl168
  have h24 : 24 ≤ i := by omega
  have hdem : fr.demand_mwh = ((cleanedDemands rows)[i]?).join := by
    have hcd : (cleanedDemands rows)[i]? =
        some (((cleanStage rows).get ⟨i, hi⟩).demand_mwh) := by
      rw [cleanedDemands, demandCol, List.getElem?_map, List.getElem?_eq_getElem hi]
      simp [List.get_eq_getElem]
    rw [hcd, hfe]
    rfl
  have hlag24v : fr.lag_demand_24h = ((cleanedDemands rows)[i - 24]?).join := by
    rw [hlag24, shiftAt, if_pos h24]
  have hlag168v : fr.lag_demand_1_week = ((cleanedDemands rows)[i - 168]?).join := by
    rw [hlag168, shiftAt, if_pos (by omega : 24 * 7 ≤ i)]
  have hchar := rollingMean_shift_char hdi
  rw [if_pos h24] at hchar
  have hall : (lookbackWindow (cleanedDemands rows) i).all (fun x => x.isSome)
      = true := by
    by_contra hc
    rw [hrollv, hchar, if_neg hc] at hrl
    simp at hrl
  have hrollval : fr.rolling_mean_24h =
      some (((lookbackWindow (cleanedDemands rows) i).filterMap id).sum / (24 : ℚ)) := by
    rw [hrollv, hchar, if_pos hall]
  refine ⟨i, h168, hi, hdem, hlag24v, hlag168v, hall, hrollval, ?_⟩
  intro ds' hlen' hagree
  have hwin : lookbackWindow ds' i = lookbackWindow (cleanedDemands rows) i := by
    rw [lookbackWindow, lookbackWindow]
    refine List.map_congr_left ?_
    intro j hj
    rw [List.mem_range] at hj
    rw [hagree (i - 24 + j) (by omega)]
  refine ⟨?_, ?_, ?_⟩
  · rw [shiftAt, if_pos h24, hagree (i - 24) (by omega), hlag24v]
  · rw [shiftAt, if_pos (by omega : 24 * 7 ≤ i), hagree (i - 24 * 7) (by omega),
      hlag168v]
  · rw [rollingMean_shift_char hlen', if_pos h24, hwin, if_pos hall, hrollval]

/-- Witness for C1: the single retained row of the 169-row hourly series
`sample169` (it sits at cleaned position 168, reads its lags from positions
144 and 0, and averages positions 144 through 167). -/
theorem lookback_features_strictly_prior_witness :
    ∃ i, 168 ≤ i ∧ i < (cleanStage sample169).length ∧
      sample169Row.demand_mwh = ((cleanedDemands sample169)[i]?).join ∧
      sample169Row.lag_demand_24h = ((cleanedDemands sample169)[i - 24]?).join ∧
      sample169Row.lag_demand_1_week = ((cleanedDemands sample169)[i - 168]?).join ∧
      (lookbackWindow (cleanedDemands sample169) i).all (fun x => x.isSome) = true ∧
      sample169Row.rolling_mean_24h =
        some (((lookbackWindow (cleanedDemands sample169) i).filterMap id).sum / (24 : ℚ)) ∧
      (∀ ds' : List (Option ℚ), i < ds'.length →
        (∀ j, j < i → ds'[j]? = (cleanedDemands sample169)[j]?) →
        shiftAt ds' 24 i = sample169Row.lag_demand_24h ∧
        shiftAt ds' (24 * 7) i = sample169Row.lag_demand_1_week ∧
        rollingMeanAt (shiftList 1 ds') 24 i = sample169Row.rolling_mean_24h) :=
  lookback_features_strictly_prior sample169 sample169Row (by decide!)

set_option maxRecDepth 40000
set_option maxHeartbeats 2000000

/-- **C2 (counterexample)** — the spec's concrete scenario claims the first
output row's rolling mean equals `mean(1000+120 .. 1000+143)`; on `sample200`
the code produces `mean(1000+144 .. 1000+167) = 2311/2`, which differs from
the claimed `2263/2`. -/
theorem warmup_concrete_rolling_counterexample :
    ((transform_data sample200).head?.map (fun fr => fr.rolling_mean_24h))
      = some (some ((2311 : ℚ) / 2)) ∧
    (((List.range 24).map (fun j => (1000 + 120 + j : ℚ))).sum) / 24
      = (2263 : ℚ) / 2 ∧
    ((2311 : ℚ) / 2) ≠ ((2263 : ℚ) / 2) := by
  refine ⟨by decide!, by decide!, by decide!⟩

/-- **C2 (amended)** — for every input with no missing demand values the
output row count is the deduplicated length minus the 168-row warm-up, and on
the 200-row hourly scenario the output has 32 rows whose first row sits at
input row index 168, with `lag_demand_24h = 1000 + 144`,
`lag_demand_1_week = 1000 + 0`, and `rolling_mean_24h` the mean of the 24
demands `1000 + 144 .. 1000 + 167` immediately preceding it (the spec's
`mean(1000+120 .. 1000+143)` corrected to the window the code computes). -/
theorem warmup_trimming_count_amended :
    (∀ rows : List RawRow, (∀ r ∈ rows, r.demand_mwh.isSome) →
      168 < (dedupFirst rows).length →
      (transform_data rows).length = (dedupFirst rows).length - 168) ∧
    (dedupFirst sample200).length = 200 ∧
    (transform_data sample200).length = 32 ∧
    (transform_data sample200).head? = some sample200Row ∧
    sample200Row.timestamp = hour2024 + 168 ∧
    sample200Row.lag_demand_24h = some (1000 + 144) ∧
    sample200Row.lag_demand_1_week = some (1000 + 0) ∧
    sample200Row.rolling_mean_24h =
      some ((((List.range 24).map (fun j => (1000 + 144 + j : ℚ))).sum) / 24) := by
  have hno : ∀ r ∈ sample200, r.demand_mwh.isSome := by decide
  have hdd : (dedupFirst sample200).length = 200 := by decide!
  have hlen : (transform_data sample200).length = 32 := by
    rw [transform_length_of_allSome hno, hdd]
  exact ⟨fun rows hno' _h => transform_length_of_allSome hno', hdd, hlen,
    by decide!, rfl, by decide!, by decide!, by decide!⟩

/-- **C3** — whenever zero rows survive warm-up trimming, the run ends in the
empty-result branch and performs no write: the previously stored feature
table is preserved unchanged. -/
theorem empty_result_preserves_store (raw : List RawRow)
    (store : Option (List FeatureRow))
    (h : transform_data (List.insertionSort tsLe raw) = []) :
    runMain true (some raw) store = (RunOutcome.emptyResult, store) := by
  simp [runMain, load_raw_data, h]

/-- Witness for C3: a one-row raw store (shorter than the warm-up window)
leaves a previously stored one-row feature table untouched. -/
theorem empty_result_preserves_store_witness :
    runMain true (some oneRow) (some [sample169Row]) =
      (RunOutcome.emptyResult, some [sample169Row]) :=
  empty_result_preserves_store oneRow (some [sample169Row]) (by decide!)

/-- **C4 (counterexample)** — an *empty* raw store does not make the loader
fail: `load_raw_data` returns the empty series (not the `none` failure
value), and the run ends in the empty-result branch rather than the
load-failure branch. -/
theorem empty_store_loads_counterexample :
    load_raw_data (some ([] : List RawRow)) = some [] ∧
    (some ([] : List RawRow)) ≠ none ∧
    runMain true (some ([] : List RawRow)) (some [sample169Row]) =
      (RunOutcome.emptyResult, some [sample169Row]) ∧
    RunOutcome.emptyResult ≠ RunOutcome.loadFailed := by
  refine ⟨rfl, by simp, by decide!, by decide!⟩

/-- **C4 (amended)** — an unreachable raw store makes the loader fail with the
DataUnavailable condition, which is fatal: the run aborts and no output is
written; an *empty* raw store instead loads successfully as an empty series
and the run still writes nothing, ending via the empty-result branch. -/
theorem unreachable_fatal_empty_loads_amended (store : Option (List FeatureRow)) :
    runMain true none store = (RunOutcome.loadFailed, store) ∧
    load_raw_data none = none ∧
    runMain true (some []) store = (RunOutcome.emptyResult, store) ∧
    load_raw_data (some ([] : List RawRow)) = some [] := by
  exact ⟨rfl, rfl, rfl, rfl⟩

/-- **C5** — deduplication keeps, for each timestamp, exactly the first-seen
observation: it is a sublist of the input with duplicate-free timestamps,
every kept row is the first row of the input carrying its timestamp, every
input timestamp is represented, and on the spec's two-duplicate scenario only
the first of the two rows survives. -/
theorem dedup_keeps_first_seen :
    (∀ rows : List RawRow,
      (dedupFirst rows).Sublist rows ∧
      ((dedupFirst rows).map (fun r => r.timestamp)).Nodup ∧
      (∀ r ∈ dedupFirst rows,
        rows.find? (fun x => x.timestamp == r.timestamp) = some r) ∧
      (∀ r ∈ rows, ∃ s ∈ dedupFirst rows, s.timestamp = r.timestamp)) ∧
    dedupFirst dupSample = [dupKept] := by
  refine ⟨fun rows => ⟨dedupFirstGo_sublist [] rows,
    nodup_timestamps_dedupFirstGo [] rows,
    fun r hr => find?_eq_of_mem_dedupFirstGo hr,
    fun r hr => ?_⟩, by decide!⟩
  rcases covered_by_dedupFirstGo [] hr with hs | h
  · cases hs
  · exact h

/-- **C6** — the null-handling step replaces each missing demand value by the
nearest preceding non-missing value, leaves non-missing values and all
timestamps unchanged, and leaves a missing value missing when no preceding
non-missing value exists; in particular the spec's leading-gap scenario (five
missing rows, then 500) passes through the Cleaner unchanged. -/
theorem ffill_nearest_preceding :
    (∀ rows : List RawRow,
      (fillDemand rows).map (fun r => r.timestamp) =
        rows.map (fun r => r.timestamp) ∧
      ∀ i, i < rows.length →
        ((fillDemand rows)[i]?).map (fun r => r.demand_mwh) =
          some (nearestAtOrBefore (rows.map (fun r => r.demand_mwh)) i)) ∧
    cleanStage gapSample = gapSample := by
  refine ⟨fun rows => ⟨?_, ?_⟩, by decide!⟩
  · rw [fillDemand_eq_ffillGo]
    exact ffillGo_map_timestamp none rows
  · intro i hi
    rw [fillDemand_eq_ffillGo, ffillGo_demand_char rows none i hi]
    rw [nearestAtOrBefore, Option.or_none]

/-- **C7** — the Cleaner is idempotent: an already-cleaned series (duplicate
free timestamps, no missing demands) is a fixed point of the
deduplicate-then-forward-fill step. -/
theorem cleaner_idempotent (rows : List RawRow)
    (hnodup : (rows.map (fun r => r.timestamp)).Nodup)
    (hfull : ∀ r ∈ rows, r.demand_mwh.isSome) :
    cleanStage rows = rows ∧ cleanStage (cleanStage rows) = cleanStage rows := by
  have h1 : cleanStage rows = rows := by
    rw [cleanStage, dedupFirst, dedupFirstGo_eq_self hnodup (by simp),
      fillDemand_eq_ffillGo, ffillGo_eq_self hfull]
  exact ⟨h1, by rw [h1, h1]⟩

/-- Witness for C7: the two-row cleaned series is untouched by the Cleaner,
twice over. -/
theorem cleaner_idempotent_witness :
    cleanStage cleanPair = cleanPair ∧
      cleanStage (cleanStage cleanPair) = cleanStage cleanPair :=
  cleaner_idempotent cleanPair (by decide) (by decide)

/-- **C8** — whatever the order of the raw store's rows, the rows that the
transformation produces from the loaded (sorted) series have strictly
increasing timestamps, hence no duplicates. -/
theorem output_strictly_increasing (raws : List RawRow) :
    ((transform_data ((load_raw_data (some raws)).getD [])).map
      (fun fr => fr.timestamp)).Pairwise (· < ·) := by
  have hload : (load_raw_data (some raws)).getD [] =
      List.insertionSort tsLe raws := by
    simp [load_raw_data]
  rw [hload]
  have hsorted : List.Sorted tsLe (List.insertionSort tsLe raws) :=
    List.sorted_insertionSort tsLe raws
  have hsub : (dedupFirst (List.insertionSort tsLe raws)).Sublist
      (List.insertionSort tsLe raws) := dedupFirstGo_sublist [] _
  have hped : (dedupFirst (List.insertionSort tsLe raws)).Pairwise tsLe :=
    List.Pairwise.sublist hsub hsorted
  have hnd' : ((dedupFirst (List.insertionSort tsLe raws)).map
      (fun r => r.timestamp)).Pairwise (· ≠ ·) :=
    nodup_timestamps_dedupFirstGo [] _
  rw [List.pairwise_map] at hnd'
  have hlt : ((dedupFirst (List.insertionSort tsLe raws)).map
      (fun r => r.timestamp)).Pairwise (· < ·) := by
    rw [List.pairwise_map]
    exact (hped.and hnd').imp (fun h => lt_of_le_of_ne h.1 h.2)
  have hmapclean : (cleanStage (List.insertionSort tsLe raws)).map
      (fun r => r.timestamp) =
      (dedupFirst (List.insertionSort tsLe raws)).map (fun r => r.timestamp) := by
    rw [cleanStage, fillDemand_eq_ffillGo]
    exact ffillGo_map_timestamp none _
  have hts : ((transform_data (List.insertionSort tsLe raws)).map
      (fun fr => fr.timestamp)).Sublist
      ((dedupFirst (List.insertionSort tsLe raws)).map (fun r => r.timestamp)) := by
    rw [transform_data, dropna, ← hmapclean, ← map_timestamp_buildFeatures]
    exact (List.filter_sublist _).map _
  exact List.Pairwise.sublist hts hlt

/-- **C9** — persisting a new feature table fully replaces the stored one:
whatever was stored before, afterwards the store holds exactly the new
table's rows, with no residual rows. -/
theorem replace_semantics (prior : Option (List FeatureRow))
    (table : List FeatureRow) :
    save_features_data table prior = some table ∧
    storedRows (save_features_data table prior) = table ∧
    (∀ fr, fr ∈ storedRows (save_features_data table prior) ↔ fr ∈ table) :=
  ⟨rfl, rfl, fun _ => Iff.rfl⟩

/-- **C10** — every row of the final feature table is fully non-null: its
demand and all three look-back columns are defined (the five calendar columns
are bare naturals by construction), so rows whose demand is still missing
after forward fill are excluded by the final trimming. -/
theorem retained_rows_nonnull (rows : List RawRow) (fr : FeatureRow)
    (hfr : fr ∈ transform_data rows) :
    fr.demand_mwh.isSome = true ∧ fr.lag_demand_24h.isSome = true ∧
      fr.lag_demand_1_week.isSome = true ∧ fr.rolling_mean_24h.isSome = true := by
  rw [transform_data, dropna] at hfr
  have hcomp := List.of_mem_filter hfr
  rw [rowComplete] at hcomp
  simpa [Bool.and_eq_true, and_assoc] using hcomp

/-- Witness for C10: the single retained row of the 169-row series is fully
non-null. -/
theorem retained_rows_nonnull_witness :
    sample169Row.demand_mwh.isSome = true ∧
      sample169Row.lag_demand_24h.isSome = true ∧
      sample169Row.lag_demand_1_week.isSome = true ∧
      sample169Row.rolling_mean_24h.isSome = true :=
  retained_rows_nonnull sample169 sample169Row (by decide!)

end EnergyPipeline
